import Mathlib

/-!
A verification development for the caption-formatting pipeline of
`build.js` (the Pixelfed gallery builder).  The JavaScript string
functions are embedded shallowly over `List Char`: JS strings become
character lists, each global regex replace becomes a left-to-right
non-overlapping scan, and the JS object holding footnote definitions
becomes an insertion-ordered association list together with the
ECMAScript own-property-key ordering (integer-like keys ascending,
then the remaining keys in insertion order).
-/

namespace PixelfedMirror

/-- The code points of the JavaScript `\s` class (and of
`String.prototype.trim`): whitespace and line terminators — tab, LF,
VT, FF, CR, space, NBSP, Ogham space, the U+2000-U+200A range, LS, PS,
NNBSP, MMSP, ideographic space and the BOM. -/
def isWsNat : Nat → Bool
  | 9 | 10 | 11 | 12 | 13 | 32 | 160 | 5760
  | 8232 | 8233 | 8239 | 8287 | 12288 | 65279 => true
  | n => 8192 ≤ n && n ≤ 8202

/-- The JavaScript `\s` test on a character. -/
def isWsJS (c : Char) : Bool := isWsNat c.toNat

/-- `String.prototype.trim`. -/
def trimJS (l : List Char) : List Char :=
  ((l.dropWhile isWsJS).reverse.dropWhile isWsJS).reverse

/-- `text.split(sep)` for a one-character (or character-class) separator:
always returns at least one (possibly empty) segment. -/
def splitOnPred (p : Char → Bool) : List Char → List (List Char)
  | [] => [[]]
  | c :: rest =>
    match splitOnPred p rest with
    | s :: ss => if p c then [] :: s :: ss else (c :: s) :: ss
    | [] => [[]]

/-! ## escapeHtml

`escapeHtml` (build.js:19) chains four global replaces, `&` first so the
entities it introduces are not re-escaped. -/

/-- One global single-character replace: every occurrence of `c` becomes
the string `rep`. -/
def replaceChar (c : Char) (rep : List Char) (l : List Char) : List Char :=
  l.flatMap (fun d => if d = c then rep else [d])

def escAmp (l : List Char) : List Char := replaceChar '&' ('&' :: ('a' :: ('m' :: ('p' :: (';' :: []))))) l
def escLt (l : List Char) : List Char := replaceChar '<' ('&' :: ('l' :: ('t' :: (';' :: [])))) l
def escGt (l : List Char) : List Char := replaceChar '>' ('&' :: ('g' :: ('t' :: (';' :: [])))) l
def escQuot (l : List Char) : List Char := replaceChar '"' ('&' :: ('q' :: ('u' :: ('o' :: ('t' :: (';' :: [])))))) l

/-- `escapeHtml` on the character-list level. -/
def escL (l : List Char) : List Char := escQuot (escGt (escLt (escAmp l)))

/-- `escapeHtml` (build.js:19): non-string input is handled at the
`JSVal` level below; on strings it is the four chained replaces. -/
def escapeHtml (s : String) : String := String.mk (escL s.data)

/-! ## smartTypography

`smartTypography` (build.js:28) chains seven global regex replaces.
Each is embedded as a left-to-right non-overlapping scan. -/

/-- Pass 1: `text.replace(/ -- /g, ' — ')`. -/
def dashSpaced : List Char → List Char
  | ' ' :: ('-' :: ('-' :: (' ' :: rest))) => ' ' :: ('—' :: (' ' :: dashSpaced rest))
  | c :: rest => c :: dashSpaced rest
  | [] => []

/-- Pass 2: `text.replace(/--/g, '—')`. -/
def dashBare : List Char → List Char
  | '-' :: ('-' :: rest) => '—' :: dashBare rest
  | c :: rest => c :: dashBare rest
  | [] => []

/-- The boundary class `[\s(\[{]` of the opening-quote rules. -/
def isOpenBoundary (c : Char) : Bool :=
  isWsJS c || c = '(' || c = '[' || c = '{'

/-- Pass 3: `text.replace(/(^|[\s(\[{])"/g, '$1“')`.  The `Bool`
argument records whether the scan is still at the start of the string
(where the `^` alternative can match). -/
def openDouble : Bool → List Char → List Char
  | true, '"' :: rest => '“' :: openDouble false rest
  | _, c :: ('"' :: rest) =>
    if isOpenBoundary c then c :: ('“' :: openDouble false rest)
    else c :: openDouble false ('"' :: rest)
  | _, c :: rest => c :: openDouble false rest
  | _, [] => []

/-- The closing class `[\s.,;:!?\)\]}]` of the closing-quote rule. -/
def isCloseFollow (c : Char) : Bool :=
  isWsJS c || c = '.' || c = ',' || c = ';' || c = ':' || c = '!' || c = '?' ||
  c = ')' || c = ']' || c = '}'

/-- Pass 4: `text.replace(/"([\s.,;:!?\)\]}]|$)/g, '”$1')`. -/
def closeDouble : List Char → List Char
  | '"' :: [] => '”' :: []
  | '"' :: (c :: rest) =>
    if isCloseFollow c then '”' :: (c :: closeDouble rest)
    else '"' :: closeDouble (c :: rest)
  | c :: rest => c :: closeDouble rest
  | [] => []

/-- Pass 5: `text.replace(/"/g, '”')`. -/
def fallbackDouble (l : List Char) : List Char :=
  replaceChar '"' ('”' :: []) l

/-- Pass 6: `text.replace(/(^|[\s(\[{])'/g, '$1‘')`. -/
def openSingle : Bool → List Char → List Char
  | true, '\'' :: rest => '‘' :: openSingle false rest
  | _, c :: ('\'' :: rest) =>
    if isOpenBoundary c then c :: ('‘' :: openSingle false rest)
    else c :: openSingle false ('\'' :: rest)
  | _, c :: rest => c :: openSingle false rest
  | _, [] => []

/-- Pass 7: `text.replace(/'/g, '’')`. -/
def apostrophe (l : List Char) : List Char :=
  replaceChar '\'' ('’' :: []) l

/-- `smartTypography` on the character-list level: the seven passes in
source order. -/
def smartL (l : List Char) : List Char :=
  apostrophe (openSingle true (fallbackDouble (closeDouble
    (openDouble true (dashBare (dashSpaced l))))))

/-- `smartTypography` (build.js:28) on strings. -/
def smartTypography (s : String) : String := String.mk (smartL s.data)

/-! ## addFootnoteLinks -/

/-- `text.replace(pat, rep)` for a *string* pattern: JS replaces only
the first (leftmost) occurrence. -/
def replaceFirstL (pat rep : List Char) : List Char → List Char
  | [] => []
  | c :: rest =>
    if pat.isPrefixOf (c :: rest) then rep ++ (c :: rest).drop pat.length
    else c :: replaceFirstL pat rep rest

/-- First link rule's term (build.js:67). -/
def mmTerm : List Char := ("Minor Mage").data

/-- The anchor the first link rule substitutes. -/
def mmAnchor : List Char :=
  ("<a href=\"https://amzn.to/4bBWxD9\" target=\"_blank\" rel=\"noopener\">Minor Mage</a>").data

/-- Second link rule's term (build.js:68), written with the curly quotes
it carries post-typography. -/
def icTerm : List Char := ("“ideal city”").data

/-- The anchor the second link rule substitutes. -/
def icAnchor : List Char :=
  ("<a href=\"https://acoup.blog/2019/07/12/collections-the-lonely-city-part-i-the-ideal-city/\" target=\"_blank\" rel=\"noopener\">“ideal city”</a>").data

/-- `addFootnoteLinks` (build.js:64): the two link rules applied in list
order, each replacing only the first occurrence of its term. -/
def addFootnoteLinksL (l : List Char) : List Char :=
  replaceFirstL icTerm icAnchor (replaceFirstL mmTerm mmAnchor l)

/-- `addFootnoteLinks` on strings. -/
def addFootnoteLinks (s : String) : String := String.mk (addFootnoteLinksL s.data)

/-! ## Footnote markers and the line state machine -/

/-- The sub-list lengths only shrink under `dropWhile`. -/
theorem length_dropWhile_le (p : Char → Bool) :
    ∀ l : List Char, (l.dropWhile p).length ≤ l.length := by
  intro l
  induction l with
  | nil => exact Nat.le_refl _
  | cons c t ih =>
    cases hc : p c with
    | true =>
      simp only [List.dropWhile_cons, hc, if_true]
      exact Nat.le_trans ih (Nat.le_succ _)
    | false =>
      simp only [List.dropWhile_cons, hc]
      simp

/-- A match of the marker regex `\[FN\s*(\d+)\]` at the current scan
position: the digit capture and the input after the match.  `\s*` and
`\d+` are greedy over disjoint character classes, so the match is the
plain `dropWhile`/`takeWhile` decomposition. -/
def markerMatch (l : List Char) : Option (List Char × List Char) :=
  match l with
  | '[' :: ('F' :: ('N' :: rest)) =>
    if (rest.dropWhile isWsJS).takeWhile Char.isDigit = [] then none
    else
      match (rest.dropWhile isWsJS).dropWhile Char.isDigit with
      | ']' :: tail => some ((rest.dropWhile isWsJS).takeWhile Char.isDigit, tail)
      | _ => none
  | _ => none

theorem markerMatch_length {l ds tail} (h : markerMatch l = some (ds, tail)) :
    tail.length < l.length := by
  unfold markerMatch at h
  split at h
  case _ rest =>
    have hws : (rest.dropWhile isWsJS).length ≤ rest.length :=
      length_dropWhile_le isWsJS rest
    have hds : ((rest.dropWhile isWsJS).dropWhile Char.isDigit).length ≤
        (rest.dropWhile isWsJS).length :=
      length_dropWhile_le Char.isDigit (rest.dropWhile isWsJS)
    split at h
    · exact absurd h (by simp)
    · split at h
      case _ tail' heq =>
        simp only [Option.some.injEq, Prod.mk.injEq] at h
        obtain ⟨-, htail⟩ := h
        have hlen : tail'.length + 1 =
            ((rest.dropWhile isWsJS).dropWhile Char.isDigit).length := by
          rw [heq]; rfl
        rw [← htail]
        simp only [List.length_cons]
        omega
      · exact absurd h (by simp)
  · exact absurd h (by simp)

/-- The scanning engine of a global replace of `\[FN\s*(\d+)\]`: `out`
renders a matched digit capture; the fuel bounds recursion and the
wrappers always pass the input length, which suffices. -/
def scanF (out : List Char → List Char) : Nat → List Char → List Char
  | 0, l => l
  | _ + 1, [] => []
  | fuel + 1, c :: rest =>
    match markerMatch (c :: rest) with
    | some (ds, tail) => out ds ++ scanF out fuel tail
    | none => c :: scanF out fuel rest

/-- A global replace over all `\[FN\s*(\d+)\]` matches. -/
def scanMarkers (out : List Char → List Char) (l : List Char) : List Char :=
  scanF out l.length l

theorem scanF_fuel (out : List Char → List Char) :
    ∀ f g l, l.length ≤ f → l.length ≤ g → scanF out f l = scanF out g l := by
  intro f
  induction f with
  | zero =>
    intro g l hf _
    have : l = [] := List.eq_nil_of_length_eq_zero (Nat.le_zero.mp hf)
    subst this
    cases g <;> rfl
  | succ f ih =>
    intro g l hf hg
    cases l with
    | nil => cases g <;> rfl
    | cons c rest =>
      cases g with
      | zero => simp at hg
      | succ g =>
        simp only [List.length_cons, Nat.add_le_add_iff_right] at hf hg
        show scanF out (f + 1) (c :: rest) = scanF out (g + 1) (c :: rest)
        cases h : markerMatch (c :: rest) with
        | some p =>
          obtain ⟨ds, tail⟩ := p
          have hl := markerMatch_length h
          simp only [List.length_cons] at hl
          have h1 : tail.length ≤ f := by omega
          have h2 : tail.length ≤ g := by omega
          simp only [scanF, h]
          rw [ih g tail h1 h2]
        | none =>
          simp only [scanF, h]
          rw [ih g rest hf hg]

theorem scanMarkers_cons_match (out : List Char → List Char) {c : Char}
    {rest ds tail : List Char} (h : markerMatch (c :: rest) = some (ds, tail)) :
    scanMarkers out (c :: rest) = out ds ++ scanMarkers out tail := by
  have hl := markerMatch_length h
  simp only [List.length_cons] at hl
  show scanF out (rest.length + 1) (c :: rest) = _
  simp only [scanF, h]
  unfold scanMarkers
  rw [scanF_fuel out rest.length tail.length tail (by omega) le_rfl]

theorem scanMarkers_cons_none (out : List Char → List Char) {c : Char}
    {rest : List Char} (h : markerMatch (c :: rest) = none) :
    scanMarkers out (c :: rest) = c :: scanMarkers out rest := by
  show scanF out (rest.length + 1) (c :: rest) = _
  simp only [scanF, h]
  rfl

/-- `<sup class="footnote-ref">${num}</sup>`: the dangling-reference
rendering (build.js:117). -/
def supHtml (ds : List Char) : List Char :=
  ("<sup class=\"footnote-ref\">").data ++ ds ++ ("</sup>").data

/-- The interactive reference markup (build.js:115). -/
def tooltipHtml (ds ft : List Char) : List Char :=
  ("<span class=\"footnote-ref\" tabindex=\"0\"><sup>").data ++ ds ++
  ("</sup><span class=\"footnote-tooltip\">").data ++ ft ++ ("</span></span>").data

/-- Reading a JS object property: first (unique) matching key. -/
def objGet : List (List Char × List Char) → List Char → Option (List Char)
  | [], _ => none
  | (k, v) :: t, q => if k = q then some v else objGet t q

/-- The replacement callback of build.js:110-118: a truthy (= nonempty)
recorded definition, typography-normalized, escaped and link-augmented,
becomes a tooltip; anything else a plain superscript. -/
def renderRef (fns : List (List Char × List Char)) (ds : List Char) : List Char :=
  let ft0 : List Char :=
    match objGet fns ds with
    | some v => if v = [] then [] else escL (smartL v)
    | none => []
  let ft := addFootnoteLinksL ft0
  if ft = [] then supHtml ds else tooltipHtml ds ft

/-- The inline-marker substitution pass of `formatCaption`. -/
def replaceRefs (fns : List (List Char × List Char)) (l : List Char) : List Char :=
  scanMarkers (renderRef fns) l

/-- The marker-stripping pass of `getPreview`: `/\[FN\s*\d+\]/g` → `''`. -/
def stripMarkers (l : List Char) : List Char :=
  scanMarkers (fun _ => []) l

/-- What the JavaScript `.` matches: any character except the four
line terminators. -/
def jsDotOk (c : Char) : Bool :=
  !(c = '\n' || c = '\r' || c = '\u2028' || c = '\u2029')

/-- Whether `\s*(.+)$` matches the text after the `]` of a definition
line.  The greedy `\s*` backtracks, so a match exists exactly when
either something non-whitespace follows and everything from there on is
`.`-matchable, or the text is all whitespace, nonempty, and its last
character is `.`-matchable (e.g. a plain space, but not a `\r`). -/
def fnRestMatches (rest : List Char) : Bool :=
  match rest.dropWhile isWsJS with
  | [] =>
    match rest.getLast? with
    | some c => jsDotOk c
    | none => false
  | afterWs => afterWs.all jsDotOk

/-- The definition-line regex `^\[FN\s*(\d+)\]\s*(.+)$` over one line:
the digit capture, and the recorded value.  Whatever prefix the greedy
`\s*` keeps, `.trim()` of the `(.+)` capture equals the trim of the
whole text after the `]`. -/
def fnLineMatch (l : List Char) : Option (List Char × List Char) :=
  match l with
  | '[' :: ('F' :: ('N' :: rest)) =>
    if (rest.dropWhile isWsJS).takeWhile Char.isDigit = [] then none
    else
      match (rest.dropWhile isWsJS).dropWhile Char.isDigit with
      | ']' :: tail =>
        if fnRestMatches tail then some ((rest.dropWhile isWsJS).takeWhile Char.isDigit, trimJS tail)
        else none
      | _ => none
  | _ => none

/-- Numeric value of a digit string. -/
def digitsToNat (l : List Char) : Nat :=
  l.foldl (fun a c => a * 10 + (c.toNat - 48)) 0

/-- Whether a key is an ECMAScript array index: a canonical (no leading
zero) digit string below `2^32 - 1`.  Own property keys of this shape
enumerate in ascending numeric order, before all other string keys. -/
def isArrayIndexKey (l : List Char) : Bool :=
  !l.isEmpty && l.all Char.isDigit &&
  (l == ['0'] || l.head? != some '0') &&
  decide (digitsToNat l < 2 ^ 32 - 1)

/-- Insertion into a numerically ascending key list. -/
def insertAsc (k : List Char) : List (List Char) → List (List Char)
  | [] => [k]
  | x :: xs =>
    if digitsToNat k ≤ digitsToNat x then k :: x :: xs else x :: insertAsc k xs

/-- Ascending numeric sort of the array-index keys. -/
def sortAsc : List (List Char) → List (List Char)
  | [] => []
  | x :: xs => insertAsc x (sortAsc xs)

/-- `Object.keys`: array-index keys in ascending numeric order first,
then the remaining keys in insertion order. -/
def jsKeys (fns : List (List Char × List Char)) : List (List Char) :=
  sortAsc ((fns.map Prod.fst).filter isArrayIndexKey) ++
    (fns.map Prod.fst).filter (fun k => !isArrayIndexKey k)

/-- `Object.keys(footnotes).pop()` (build.js:97). -/
def jsLastKey (fns : List (List Char × List Char)) : Option (List Char) :=
  (jsKeys fns).getLast?

/-- JS property assignment `obj[k] = v`: overwrite in place, else append. -/
def objSet : List (List Char × List Char) → List Char → List Char →
    List (List Char × List Char)
  | [], k, v => [(k, v)]
  | (k', v') :: t, k, v => if k' = k then (k, v) :: t else (k', v') :: objSet t k v

/-- `footnotes[lastKey] += extra` on a present key. -/
def objExtend : List (List Char × List Char) → List Char → List Char →
    List (List Char × List Char)
  | [], _, _ => []
  | (k', v') :: t, k, extra =>
    if k' = k then (k', v' ++ extra) :: t else (k', v') :: objExtend t k extra

/-- State of the line scan of `formatCaption` (build.js:86-104). -/
structure FCState where
  body : List (List Char)
  fns : List (List Char × List Char)
  inFn : Bool
deriving DecidableEq

/-- One iteration of the `for (const line of lines)` loop
(build.js:90-104). -/
def stepLine (s : FCState) (line : List Char) : FCState :=
  match fnLineMatch line with
  | some (num, val) => { s with inFn := true, fns := objSet s.fns num val }
  | none =>
    if s.inFn && !(trimJS line).isEmpty && !(("[FN").data.isPrefixOf line) then
      match jsLastKey s.fns with
      | some k =>
        if k.isEmpty then s
        else { s with fns := objExtend s.fns k (' ' :: trimJS line) }
      | none => s
    else if !s.inFn then { s with body := s.body ++ [line] }
    else s

/-- `text.split('\n')`. -/
def splitNl (l : List Char) : List (List Char) :=
  splitOnPred (fun c => c == '\n') l

/-- The whole line scan, from the initial state. -/
def extractState (l : List Char) : FCState :=
  (splitNl l).foldl stepLine ⟨[], [], false⟩

/-- `formatted.replace(/\n/g, '<br>')` (build.js:121). -/
def nlToBr (l : List Char) : List Char :=
  replaceChar '\n' (("<br>").data) l

/-- `formatCaption` (build.js:77) on character lists; the `!text` guard
lives in the `String` and `JSVal` wrappers. -/
def formatCaptionL (l : List Char) : List Char :=
  let st := extractState l
  let formatted := escL (smartL (List.intercalate ['\n'] st.body))
  nlToBr (replaceRefs st.fns formatted)

/-- `formatCaption` on strings (`!text` rejects exactly the empty
string). -/
def formatCaption (s : String) : String :=
  if s = "" then "" else String.mk (formatCaptionL s.data)

/-! ## getPreview -/

/-- The sentence-terminator class `[.!?]`. -/
def isSentenceEnd (c : Char) : Bool := c = '.' || c = '!' || c = '?'

/-- `getPreview` (build.js:127) on character lists. -/
def getPreviewL (l : List Char) : List Char :=
  let plain := trimJS (stripMarkers l)
  let firstSentence := (splitOnPred isSentenceEnd plain).headD []
  if firstSentence.length > 120 then
    escL (smartL (firstSentence.take 117 ++ ("...").data))
  else
    escL (smartL (firstSentence ++
      (if plain.length > firstSentence.length then ("...").data else [])))

/-- `getPreview` on strings. -/
def getPreview (s : String) : String :=
  if s = "" then "" else String.mk (getPreviewL s.data)

/-- Modelled from the spec (§4.5 Preview Extractor), for comparison with
`getPreviewL`: strip markers, trim, take the text before the first
sentence terminator; over 120 characters → first 117 plus ellipsis;
otherwise an ellipsis exactly when more text followed the first
sentence. -/
def previewSpecL (l : List Char) : List Char :=
  let plain := trimJS (stripMarkers l)
  let firstSentence := plain.takeWhile (fun c => !isSentenceEnd c)
  escL (smartL (
    if firstSentence.length > 120 then firstSentence.take 117 ++ ("...").data
    else if firstSentence = plain then firstSentence
    else firstSentence ++ ("...").data))

/-! ## JS dynamic typing of the two caption formatters -/

/-- The JavaScript values a caption slot can hold. -/
inductive JSVal where
  | vstr (s : String)
  | vnum (n : Int)
  | vnan
  | vbool (b : Bool)
  | vnull
  | vundef
  | vobj
deriving DecidableEq

/-- JS truthiness. -/
def truthy : JSVal → Bool
  | .vstr s => !s.isEmpty
  | .vnum n => n != 0
  | .vnan => false
  | .vbool b => b
  | .vnull => false
  | .vundef => false
  | .vobj => true

/-- `formatCaption` applied to an arbitrary JS value: the guard
`if (!text) return ''` passes any truthy value through to
`text.split('\n')`, which throws a TypeError on a non-string. -/
def formatCaptionJS (v : JSVal) : Except String String :=
  if truthy v then
    match v with
    | .vstr s => .ok (formatCaption s)
    | _ => .error ("TypeError")
  else .ok ""

/-- `getPreview` applied to an arbitrary JS value (`text.replace` throws
on a truthy non-string). -/
def getPreviewJS (v : JSVal) : Except String String :=
  if truthy v then
    match v with
    | .vstr s => .ok (getPreview s)
    | _ => .error ("TypeError")
  else .ok ""

/-! ## Entry assembly -/

/-- One feed or manual entry as `addEntry` consumes it. -/
structure Entry where
  imageUrl : String
  title : String
  postUrl : String
deriving DecidableEq

/-- The `TEXT_REPLACEMENTS` table (build.js:138): one anchored rule
turning a leading `Dogs` + dashes prefix into `...dogs` + dashes. -/
def applyTextReplacements (s : String) : String :=
  if ("Dogs --").isPrefixOf s then String.mk (("...dogs --").data ++ s.data.drop 7)
  else s

/-- The grid thumbnail template of `addEntry` (build.js:201). -/
def gridItemHtml (index : Nat) (imageUrl title : String) : String :=
  "\n      <div class=\"grid-item\" data-index=\"" ++ toString index ++
  "\">\n        <img src=\"" ++ escapeHtml imageUrl ++
  "\" alt=\"\" loading=\"lazy\">\n        <div class=\"hover-caption\">" ++
  getPreview title ++ "</div>\n      </div>"

/-- The lightbox slide template of `addEntry` (build.js:208). -/
def slideHtml (index : Nat) (imageUrl title postUrl : String) : String :=
  "\n      <div class=\"slide\" data-index=\"" ++ toString index ++
  "\" data-post-url=\"" ++ escapeHtml postUrl ++
  "\">\n        <img src=\"" ++ escapeHtml imageUrl ++
  "\" alt=\"\">\n        <div class=\"caption-panel\">\n          <div class=\"caption-text\">" ++
  formatCaption title ++ "</div>\n        </div>\n      </div>"

/-- `MANUAL_ENTRIES` (build.js:150): the two posts missing from the
feed, hardcoded oldest first. -/
def MANUAL_ENTRIES : List Entry := [
  { imageUrl := "https://pxscdn.com/public/m/_v2/372424658891954694/c19ce1b25-2f8843/fJKRz3VJEKXn/ibb5DAEsB7mv3x4ghcRfEdvd7H07alMNniL1Honj.png",
    title := "Behemoths live primarily among the stars, but like frogs and water, their young need soil to gestate and grow. Humankind discovered the behemoth when a seed slammed to ground and destroyed a sacred grove back on our home planet. After a war or two, our two species entered into symbiosis with one another. Humans protected the seeds, learned to commune with the juvenile, and joined the youngling in the stars. For thousands of years, we have journeyed from star to star with the behemoth spawn they have succored, and in the process, colonized unknowable planets.\n\nMy great, great, great grandmother bred dogs in the belly of such a beast. I'll never see one.",
    postUrl := "https://pixelfed.social/p/eleanorkonik/910743161584559284" },
  { imageUrl := "https://pxscdn.com/public/m/_v2/372424658891954694/c19ce1b25-2f8843/BskuLA20NGMl/baIgpROKkn0iAeBKRxIHJGQVcINDGTImV2WOE2kG.png",
    title := "When a Behemoth launches itself into the stars, it takes with it a breeding population of humans, which live inside the belly of the beast, getting all their nutrients and air from inside the cavern, until it finds a mate. Then, the male Behemoth carves a nest in the soil while the female feeds on the nearby star. She plants the seed, the male fertilizes it, and each disgorges a portion of their human population to serve as caretakers for the seed, leaving them free to roam the stars once more.\n\nThen, the humans spend long years scouting, and building, and negotiating a new hierarchy and social order. Often, there are external threats that need to be dealt with -- just the thing for forging a united population.\n\nOn the tallest mountain on the planet known as Pieran, there stands a small observation tower built of wood, and from it, one can see...",
    postUrl := "https://pixelfed.social/p/eleanorkonik/910738205739311234" }
]

/-- The manual-entry loop (build.js:220): every entry added, index
incremented per entry. -/
def manualLoop : Nat → List Entry → List String × List String × Nat
  | idx, [] => ([], [], idx)
  | idx, e :: rest =>
    let r := manualLoop (idx + 1) rest
    (gridItemHtml idx e.imageUrl e.title :: r.1,
     slideHtml idx e.imageUrl e.title e.postUrl :: r.2.1, r.2.2)

/-- The feed-entry loop (build.js:226): text replacements applied to the
title, entries with an empty image URL skipped without consuming an
index. -/
def feedLoop : Nat → List Entry → List String × List String × Nat
  | idx, [] => ([], [], idx)
  | idx, e :: rest =>
    let title := applyTextReplacements e.title
    if e.imageUrl = "" then feedLoop idx rest
    else
      let r := feedLoop (idx + 1) rest
      (gridItemHtml idx e.imageUrl title :: r.1,
       slideHtml idx e.imageUrl title e.postUrl :: r.2.1, r.2.2)

/-- Entry assembly of `build()` (build.js:196-242): manual entries
first, then the feed; returns (gridItems, lightboxSlides,
totalEntries). -/
def assemble (feed : List Entry) : List String × List String × Nat :=
  let m := manualLoop 0 MANUAL_ENTRIES
  let f := feedLoop m.2.2 feed
  (m.1 ++ f.1, m.2.1 ++ f.2.1, f.2.2)

/-- Zero-based indexed map: the specification shape of the two parallel
output sequences. -/
def withIdx (f : Nat → Entry → String) : Nat → List Entry → List String
  | _, [] => []
  | i, e :: es => f i e :: withIdx f (i + 1) es

set_option maxRecDepth 16384 in
/-- Sanity check of the embedding on the specification's worked example:
a body with two inline markers, footnote 1 continued on the next line,
footnote 2 on one line. -/
theorem formatCaption_worked_example :
    formatCaption ("See [FN1] and [FN2].\n[FN1] First note.\ncontinued.\n[FN2] Second.") =
      "See <span class=\"footnote-ref\" tabindex=\"0\"><sup>1</sup><span class=\"footnote-tooltip\">First note. continued.</span></span> and <span class=\"footnote-ref\" tabindex=\"0\"><sup>2</sup><span class=\"footnote-tooltip\">Second.</span></span>." := by
  decide

/-- Sanity check of the preview: ellipsis exactly when text follows the
first sentence (including the terminator itself). -/
theorem getPreview_examples :
    getPreview ("Hello world. More text follows here.") = "Hello world..." ∧
    getPreview ("Hello world") = "Hello world" ∧
    getPreview ("Hello world.") = "Hello world..." := by
  refine ⟨by decide, by decide, by decide⟩

/-! ## Claim C6 -/

/-- C6: `smartTypography` turns `"a -- b"` into text whose only em dash
is surrounded by single spaces, turns `"a--b"` into an em dash with no
spaces, and gives the Sam's-dog sentence an opening curly double quote
before `hi`, a closing one after it, and a single curly apostrophe. -/
theorem c6_smart_typography_examples :
    smartTypography ("a -- b") = "a — b" ∧
    (smartTypography ("a -- b")).data.count '—' = 1 ∧
    smartTypography ("a--b") = "a—b" ∧
    smartTypography ("He said \"hi\" to Sam's dog.") = "He said “hi” to Sam’s dog." ∧
    (smartTypography ("He said \"hi\" to Sam's dog.")).data.count '“' = 1 ∧
    (smartTypography ("He said \"hi\" to Sam's dog.")).data.count '”' = 1 ∧
    (smartTypography ("He said \"hi\" to Sam's dog.")).data.count '’' = 1 := by
  decide

/-! ## Claim C1 -/

/-- C1 (evaluation at the failing input): footnote 2 is defined first,
then footnote 1, then a continuation line `cc` follows.  The most
recently inserted entry is footnote 1, but `Object.keys(...).pop()`
returns the *numerically largest* array-index key, so the code appends
`cc` to footnote 2 — against the claim's (and the code comment's)
most-recently-inserted rule. -/
theorem c1_continuation_goes_to_largest_key :
    (extractState (("See [FN1][FN2]\n[FN2] aa\n[FN1] bb\ncc").data)).fns =
      [(("2").data, ("aa cc").data), (("1").data, ("bb").data)] := by
  decide

/-! ## Claim C3 -/

/-- C3 (counterexample): a truthy non-string caption — here an object —
reaches `text.split('\n')` respectively `text.replace(...)` and throws a
TypeError, so "for every non-string caption input ... return the empty
string and never raise" fails as stated. -/
theorem c3_truthy_nonstring_throws :
    formatCaptionJS JSVal.vobj = Except.error ("TypeError") ∧
    getPreviewJS JSVal.vobj = Except.error ("TypeError") :=
  ⟨rfl, rfl⟩

/-- C3 (amended): every *falsy* caption value — null, undefined, false,
0, NaN or the empty string, which covers everything the feed extractor
actually hands over — makes both formatters return the empty string
without raising. -/
theorem c3_falsy_inputs_graceful (v : JSVal) (h : truthy v = false) :
    formatCaptionJS v = Except.ok ("") ∧ getPreviewJS v = Except.ok ("") := by
  unfold formatCaptionJS getPreviewJS
  rw [h]
  simp

/-- C3 witness: the amended theorem applied at `null`. -/
theorem c3_falsy_inputs_graceful_witness :
    formatCaptionJS JSVal.vnull = Except.ok ("") ∧
    getPreviewJS JSVal.vnull = Except.ok ("") :=
  c3_falsy_inputs_graceful JSVal.vnull (by decide)

/-! ## Claim C5 -/

/-- A line whose trim is empty is entirely whitespace, hence not a
footnote-definition line. -/
theorem fnLineMatch_of_trim_nil {line : List Char} (h : trimJS line = []) :
    fnLineMatch line = none := by
  have hdw : line.dropWhile isWsJS = [] := by
    by_contra hne
    cases hdrop : line.dropWhile isWsJS with
    | nil => exact hne hdrop
    | cons c t =>
      have hc : isWsJS c = false := by
        have hh := List.head?_dropWhile_not isWsJS line
        rw [hdrop] at hh
        simpa using hh
      have hmem : c ∈ (line.dropWhile isWsJS).reverse := by
        rw [hdrop]; simp
      unfold trimJS at h
      have : (line.dropWhile isWsJS).reverse.dropWhile isWsJS = [] := by
        have := congrArg List.reverse h
        simpa using this
      rw [List.dropWhile_eq_nil_iff] at this
      have := this c hmem
      rw [hc] at this
      exact absurd this (by simp)
  have hall : ∀ a ∈ line, isWsJS a := List.dropWhile_eq_nil_iff.mp hdw
  cases line with
  | nil => rfl
  | cons c t =>
    have hc := hall c (by simp)
    unfold fnLineMatch
    split
    case _ rest heq =>
      have : c = '[' := by
        have := congrArg (fun l => l.head?) heq
        simpa using this
      rw [this] at hc
      exact absurd hc (by decide)
    · rfl

/-- A step from a FOOTNOTES state never touches the body and never
leaves FOOTNOTES. -/
theorem stepLine_stays_footnotes {s : FCState} (line : List Char)
    (h : s.inFn = true) :
    (stepLine s line).inFn = true ∧ (stepLine s line).body = s.body := by
  unfold stepLine
  cases hm : fnLineMatch line with
  | some p =>
    obtain ⟨n, v⟩ := p
    exact ⟨rfl, rfl⟩
  | none =>
    dsimp only
    rw [h]
    by_cases h2 : (!(trimJS line).isEmpty && !(("[FN").data.isPrefixOf line)) = true
    · simp only [Bool.true_and, h2, if_true]
      cases hk : jsLastKey s.fns with
      | some k =>
        by_cases hke : k.isEmpty = true
        · simp [hke, h]
        · simp [hke, h]
      | none => simp [h]
    · simp only [Bool.true_and]
      rw [if_neg (by simpa using h2)]
      simp only [Bool.not_true]
      rw [if_neg (by simp)]
      exact ⟨h, rfl⟩

/-- C5: the BODY→FOOTNOTES transition is one-way — from any state
already in FOOTNOTES, processing any remaining lines leaves the
accumulated body text unchanged and the machine in FOOTNOTES — and a
blank line seen while in FOOTNOTES is dropped outright: it neither
starts nor continues a footnote, nor returns the machine to BODY. -/
theorem c5_footnotes_one_way_blank_dropped :
    (∀ (s : FCState) (ls : List (List Char)), s.inFn = true →
      (ls.foldl stepLine s).inFn = true ∧ (ls.foldl stepLine s).body = s.body) ∧
    (∀ (s : FCState) (line : List Char), s.inFn = true → trimJS line = [] →
      stepLine s line = s) := by
  constructor
  · intro s ls
    induction ls generalizing s with
    | nil => intro h; exact ⟨h, rfl⟩
    | cons line rest ih =>
      intro h
      have hstep := stepLine_stays_footnotes line h
      have hrec := ih (stepLine s line) hstep.1
      exact ⟨hrec.1, hrec.2.trans hstep.2⟩
  · intro s line h htrim
    unfold stepLine
    rw [fnLineMatch_of_trim_nil htrim]
    dsimp only
    rw [h, htrim]
    simp

/-- C5 witness: a concrete FOOTNOTES state, a later prose line and a
blank line. -/
theorem c5_footnotes_one_way_blank_dropped_witness :
    ((([("later prose").data, ("[FN2] two").data]).foldl stepLine
        ⟨[("intro").data], [(("1").data, ("one").data)], true⟩).inFn = true ∧
      (([("later prose").data, ("[FN2] two").data]).foldl stepLine
        ⟨[("intro").data], [(("1").data, ("one").data)], true⟩).body =
        [("intro").data]) ∧
    stepLine ⟨[("intro").data], [(("1").data, ("one").data)], true⟩ ("   ").data =
      ⟨[("intro").data], [(("1").data, ("one").data)], true⟩ :=
  ⟨c5_footnotes_one_way_blank_dropped.1 _ _ rfl,
   c5_footnotes_one_way_blank_dropped.2 _ _ rfl (by decide)⟩

/-! ## Claim C10 -/

/-- A code point in the digit range is not JS whitespace. -/
theorem isWsNat_eq_false_of_digit {n : Nat} (h1 : 48 ≤ n) (h2 : n ≤ 57) :
    isWsNat n = false := by
  unfold isWsNat
  split
  all_goals first
    | omega
    | (have hno : ¬ 8192 ≤ n := by omega
       simp [hno])

/-- A digit is not JS whitespace. -/
theorem not_ws_of_isDigit {c : Char} (h : c.isDigit = true) : isWsJS c = false := by
  have h09 : 48 ≤ c.toNat ∧ c.toNat ≤ 57 := by
    simp only [Char.isDigit, Bool.and_eq_true, decide_eq_true_eq] at h
    obtain ⟨h1, h2⟩ := h
    exact ⟨h1, h2⟩
  exact isWsNat_eq_false_of_digit h09.1 h09.2

/-- `\s*` stops exactly at the first non-whitespace character. -/
theorem dropWhile_ws_append (ws : List Char) (d : Char) (rest : List Char)
    (hws : ws.all isWsJS = true) (hd : isWsJS d = false) :
    (ws ++ d :: rest).dropWhile isWsJS = d :: rest := by
  induction ws with
  | nil => simp [List.dropWhile_cons, hd]
  | cons c t ih =>
    simp only [List.all_cons, Bool.and_eq_true] at hws
    simp only [List.cons_append, List.dropWhile_cons, hws.1, if_true]
    exact ih hws.2

/-- `\d+` takes exactly the digit block when a `]` follows. -/
theorem takeDrop_digits_append (ds rest : List Char) (hds : ds.all Char.isDigit = true) :
    (ds ++ ']' :: rest).takeWhile Char.isDigit = ds ∧
    (ds ++ ']' :: rest).dropWhile Char.isDigit = ']' :: rest := by
  induction ds with
  | nil =>
    constructor
    · simp [List.takeWhile_cons]
    · simp [List.dropWhile_cons]
  | cons c t ih =>
    simp only [List.all_cons, Bool.and_eq_true] at hds
    obtain ⟨ht, hd⟩ := ih hds.2
    constructor
    · simp only [List.cons_append, List.takeWhile_cons, hds.1, if_true, ht]
    · simp only [List.cons_append, List.dropWhile_cons, hds.1, if_true, hd]

/-- The marker regex at a `[FN` + whitespace + digits + `]` token. -/
theorem markerMatch_atMarker (ws ds rest : List Char)
    (hws : ws.all isWsJS = true) (hne : ds ≠ []) (hds : ds.all Char.isDigit = true) :
    markerMatch ('[' :: ('F' :: ('N' :: (ws ++ ds ++ ']' :: rest)))) = some (ds, rest) := by
  obtain ⟨d, ds', rfl⟩ : ∃ d ds', ds = d :: ds' := by
    cases ds with
    | nil => exact absurd rfl hne
    | cons d ds' => exact ⟨d, ds', rfl⟩
  have hd0 : d.isDigit = true := by
    simp only [List.all_cons, Bool.and_eq_true] at hds
    exact hds.1
  have hdws : isWsJS d = false := not_ws_of_isDigit hd0
  have h1 : (ws ++ (d :: ds') ++ ']' :: rest).dropWhile isWsJS = (d :: ds') ++ ']' :: rest := by
    rw [List.append_assoc, List.cons_append]
    rw [dropWhile_ws_append ws d (ds' ++ ']' :: rest) hws hdws]
  obtain ⟨htake, hdrop⟩ := takeDrop_digits_append (d :: ds') rest hds
  simp only [markerMatch]
  rw [h1, htake, hdrop]
  simp

/-- The definition-line regex at the same token shape. -/
theorem fnLineMatch_atMarker (ws ds rest : List Char)
    (hws : ws.all isWsJS = true) (hne : ds ≠ []) (hds : ds.all Char.isDigit = true) :
    fnLineMatch ('[' :: ('F' :: ('N' :: (ws ++ ds ++ ']' :: rest)))) =
      (if fnRestMatches rest then some (ds, trimJS rest) else none) := by
  obtain ⟨d, ds', rfl⟩ : ∃ d ds', ds = d :: ds' := by
    cases ds with
    | nil => exact absurd rfl hne
    | cons d ds' => exact ⟨d, ds', rfl⟩
  have hd0 : d.isDigit = true := by
    simp only [List.all_cons, Bool.and_eq_true] at hds
    exact hds.1
  have hdws : isWsJS d = false := not_ws_of_isDigit hd0
  have h1 : (ws ++ (d :: ds') ++ ']' :: rest).dropWhile isWsJS = (d :: ds') ++ ']' :: rest := by
    rw [List.append_assoc, List.cons_append]
    rw [dropWhile_ws_append ws d (ds' ++ ']' :: rest) hws hdws]
  obtain ⟨htake, hdrop⟩ := takeDrop_digits_append (d :: ds') rest hds
  simp only [fnLineMatch]
  rw [h1, htake, hdrop]
  simp

/-- C10: whitespace between `FN` and the digits is tolerated alike in
all three marker consumers: the definition-line parser, the inline
substitution pass of the body, and the preview's marker stripping each
treat `[FN <n>]` exactly as `[FN<n>]`. -/
theorem c10_marker_whitespace_tolerated (ws ds rest : List Char)
    (fns : List (List Char × List Char))
    (hws : ws.all isWsJS = true) (hne : ds ≠ []) (hds : ds.all Char.isDigit = true) :
    (fnLineMatch ('[' :: ('F' :: ('N' :: (ws ++ ds ++ ']' :: rest)))) =
      fnLineMatch ('[' :: ('F' :: ('N' :: (ds ++ ']' :: rest))))) ∧
    (replaceRefs fns ('[' :: ('F' :: ('N' :: (ws ++ ds ++ ']' :: rest)))) =
      replaceRefs fns ('[' :: ('F' :: ('N' :: (ds ++ ']' :: rest))))) ∧
    (stripMarkers ('[' :: ('F' :: ('N' :: (ws ++ ds ++ ']' :: rest)))) =
      stripMarkers ('[' :: ('F' :: ('N' :: (ds ++ ']' :: rest))))) := by
  have hnil : ([] : List Char).all isWsJS = true := by simp
  have hm1 := markerMatch_atMarker ws ds rest hws hne hds
  have hm0 := markerMatch_atMarker [] ds rest hnil hne hds
  rw [List.nil_append] at hm0
  refine ⟨?_, ?_, ?_⟩
  · rw [fnLineMatch_atMarker ws ds rest hws hne hds]
    have := fnLineMatch_atMarker [] ds rest hnil hne hds
    rw [List.nil_append] at this
    rw [this]
  · unfold replaceRefs
    rw [scanMarkers_cons_match (renderRef fns) hm1,
      scanMarkers_cons_match (renderRef fns) hm0]
  · unfold stripMarkers
    rw [scanMarkers_cons_match (fun _ => []) hm1,
      scanMarkers_cons_match (fun _ => []) hm0]

/-- C10 witness: `[FN 1]x` and `[FN1]x`, concretely. -/
theorem c10_marker_whitespace_tolerated_witness :
    (fnLineMatch ('[' :: ('F' :: ('N' :: ([' '] ++ ['1'] ++ ']' :: (("x").data))))) =
      fnLineMatch ('[' :: ('F' :: ('N' :: (['1'] ++ ']' :: (("x").data)))))) ∧
    (replaceRefs [] ('[' :: ('F' :: ('N' :: ([' '] ++ ['1'] ++ ']' :: (("x").data))))) =
      replaceRefs [] ('[' :: ('F' :: ('N' :: (['1'] ++ ']' :: (("x").data)))))) ∧
    (stripMarkers ('[' :: ('F' :: ('N' :: ([' '] ++ ['1'] ++ ']' :: (("x").data))))) =
      stripMarkers ('[' :: ('F' :: ('N' :: (['1'] ++ ']' :: (("x").data)))))) :=
  c10_marker_whitespace_tolerated [' '] ['1'] (("x").data) []
    (by decide) (by decide) (by decide)

/-! ## Claim C4 -/

theorem replaceChar_eq_nil {c : Char} {rep : List Char} (hrep : rep ≠ []) :
    ∀ l, replaceChar c rep l = [] → l = [] := by
  intro l h
  cases l with
  | nil => rfl
  | cons d t =>
    unfold replaceChar at h
    rw [List.flatMap_cons] at h
    rcases List.append_eq_nil.mp h with ⟨h1, -⟩
    by_cases hd : d = c
    · rw [if_pos hd] at h1; exact absurd h1 hrep
    · rw [if_neg hd] at h1; simp at h1

/-- `escapeHtml` sends nonempty input to nonempty output. -/
theorem escL_eq_nil : ∀ l, escL l = [] → l = [] := by
  intro l h
  unfold escL escQuot escGt escLt escAmp at h
  exact replaceChar_eq_nil (by decide) l
    (replaceChar_eq_nil (by decide) _
      (replaceChar_eq_nil (by decide) _
        (replaceChar_eq_nil (by decide) _ h)))

set_option maxHeartbeats 1000000 in
theorem dashSpaced_ne_nil (c : Char) (rest : List Char) : dashSpaced (c :: rest) ≠ [] := by
  unfold dashSpaced
  split <;> simp_all

theorem dashSpaced_eq_nil : ∀ l, dashSpaced l = [] → l = [] := by
  intro l h
  cases l with
  | nil => rfl
  | cons c rest => exact absurd h (dashSpaced_ne_nil c rest)

set_option maxHeartbeats 1000000 in
theorem dashBare_ne_nil (c : Char) (rest : List Char) : dashBare (c :: rest) ≠ [] := by
  unfold dashBare
  split <;> simp_all

theorem dashBare_eq_nil : ∀ l, dashBare l = [] → l = [] := by
  intro l h
  cases l with
  | nil => rfl
  | cons c rest => exact absurd h (dashBare_ne_nil c rest)

set_option maxHeartbeats 1000000 in
theorem openDouble_ne_nil (st : Bool) (c : Char) (rest : List Char) :
    openDouble st (c :: rest) ≠ [] := by
  unfold openDouble
  split <;> (try split) <;> simp_all

theorem openDouble_eq_nil : ∀ st l, openDouble st l = [] → l = [] := by
  intro st l h
  cases l with
  | nil => rfl
  | cons c rest => exact absurd h (openDouble_ne_nil st c rest)

set_option maxHeartbeats 1000000 in
theorem closeDouble_ne_nil (c : Char) (rest : List Char) : closeDouble (c :: rest) ≠ [] := by
  unfold closeDouble
  split <;> (try split) <;> simp_all

theorem closeDouble_eq_nil : ∀ l, closeDouble l = [] → l = [] := by
  intro l h
  cases l with
  | nil => rfl
  | cons c rest => exact absurd h (closeDouble_ne_nil c rest)

set_option maxHeartbeats 1000000 in
theorem openSingle_ne_nil (st : Bool) (c : Char) (rest : List Char) :
    openSingle st (c :: rest) ≠ [] := by
  unfold openSingle
  split <;> (try split) <;> simp_all

theorem openSingle_eq_nil : ∀ st l, openSingle st l = [] → l = [] := by
  intro st l h
  cases l with
  | nil => rfl
  | cons c rest => exact absurd h (openSingle_ne_nil st c rest)

/-- `smartTypography` sends nonempty input to nonempty output. -/
theorem smartL_eq_nil : ∀ l, smartL l = [] → l = [] := by
  intro l h
  unfold smartL apostrophe fallbackDouble at h
  exact dashSpaced_eq_nil l
    (dashBare_eq_nil _
      (openDouble_eq_nil true _
        (closeDouble_eq_nil _
          (replaceChar_eq_nil (by decide) _
            (openSingle_eq_nil true _
              (replaceChar_eq_nil (by decide) _ h))))))

/-- `addFootnoteLinks` sends nonempty input to nonempty output. -/
theorem replaceFirstL_eq_nil {pat rep : List Char} (hrep : rep ≠ []) :
    ∀ l, replaceFirstL pat rep l = [] → l = [] := by
  intro l h
  cases l with
  | nil => rfl
  | cons c t =>
    unfold replaceFirstL at h
    by_cases hp : pat.isPrefixOf (c :: t) = true
    · rw [if_pos hp] at h
      rcases List.append_eq_nil.mp h with ⟨h1, -⟩
      exact absurd h1 hrep
    · rw [if_neg hp] at h
      simp at h

theorem addFootnoteLinksL_eq_nil : ∀ l, addFootnoteLinksL l = [] → l = [] := by
  intro l h
  unfold addFootnoteLinksL at h
  exact replaceFirstL_eq_nil (by decide) l (replaceFirstL_eq_nil (by decide) _ h)

/-- C4 (counterexample): the line `[FN1] ` *records* a definition for
footnote 1 (the empty string, after trimming), yet the inline marker
`[FN1]` renders as the plain non-interactive superscript, against the
claim's "if footnote n has a recorded definition ... tooltip". -/
theorem c4_recorded_empty_definition_plain_sup :
    objGet (extractState (("A [FN1]\n[FN1] ").data)).fns (("1").data) = some [] ∧
    formatCaption ("A [FN1]\n[FN1] ") = "A <sup class=\"footnote-ref\">1</sup>" :=
  ⟨by decide, by decide⟩

/-- C4 (amended): an inline marker whose footnote number has a recorded
*non-empty* definition becomes the numbered superscript trigger with the
attached tooltip holding the definition after typography normalization,
escaping and term linking; a marker with no recorded definition — or one
whose recorded definition is empty — becomes a plain numbered
superscript, and the scan continues after the marker either way. -/
theorem c4_marker_rendering (fns : List (List Char × List Char)) (ds rest : List Char)
    (hne : ds ≠ []) (hds : ds.all Char.isDigit = true) :
    replaceRefs fns ('[' :: ('F' :: ('N' :: (ds ++ ']' :: rest)))) =
      (match objGet fns ds with
       | some v =>
         if v = [] then supHtml ds
         else tooltipHtml ds (addFootnoteLinksL (escL (smartL v)))
       | none => supHtml ds) ++ replaceRefs fns rest := by
  have hnil : ([] : List Char).all isWsJS = true := by simp
  have hm := markerMatch_atMarker [] ds rest hnil hne hds
  rw [List.nil_append] at hm
  unfold replaceRefs
  rw [scanMarkers_cons_match (renderRef fns) hm]
  congr 1
  unfold renderRef
  cases hg : objGet fns ds with
  | some v =>
    dsimp only
    by_cases hv : v = []
    · subst hv
      rfl
    · rw [if_neg hv, if_neg hv]
      have hsm : smartL v ≠ [] := fun hc => hv (smartL_eq_nil v hc)
      have hesc : escL (smartL v) ≠ [] := fun hc => hsm (escL_eq_nil _ hc)
      have hlinks : addFootnoteLinksL (escL (smartL v)) ≠ [] :=
        fun hc => hesc (addFootnoteLinksL_eq_nil _ hc)
      rw [if_neg hlinks]
  | none => rfl

/-- C4 witness: one marker with a nonempty definition, one dangling. -/
theorem c4_marker_rendering_witness :
    replaceRefs [((("1").data), (("note").data))]
        ('[' :: ('F' :: ('N' :: (['1'] ++ ']' :: (("!").data))))) =
      (match objGet [((("1").data), (("note").data))] ['1'] with
       | some v =>
         if v = [] then supHtml ['1']
         else tooltipHtml ['1'] (addFootnoteLinksL (escL (smartL v)))
       | none => supHtml ['1']) ++ replaceRefs [((("1").data), (("note").data))] (("!").data) :=
  c4_marker_rendering [((("1").data), (("note").data))] ['1'] (("!").data)
    (by decide) (by decide)

/-! ## Claim C7 -/

/-- A string replace leaves text without any occurrence of the pattern
unchanged. -/
theorem replaceFirstL_of_no_occ {pat rep : List Char} :
    ∀ l, (∀ i, i < l.length → pat.isPrefixOf (l.drop i) = false) →
      replaceFirstL pat rep l = l := by
  intro l
  induction l with
  | nil => intro _; rfl
  | cons c t ih =>
    intro h
    have h0 : pat.isPrefixOf (c :: t) = false := by simpa using h 0 (by simp)
    unfold replaceFirstL
    rw [h0]
    simp only [Bool.false_eq_true, if_false, List.cons.injEq, true_and]
    apply ih
    intro i hi
    have := h (i + 1) (by simpa using hi)
    simpa using this

/-- A string replace at the first occurrence: the prefix before it and
the text after it are reproduced unchanged, the occurrence becomes the
replacement. -/
theorem replaceFirstL_at_first {pat rep : List Char} (hpat : pat ≠ []) :
    ∀ pre post, (∀ i, i < pre.length → pat.isPrefixOf ((pre ++ pat ++ post).drop i) = false) →
      replaceFirstL pat rep (pre ++ pat ++ post) = pre ++ rep ++ post := by
  intro pre
  induction pre with
  | nil =>
    intro post _
    obtain ⟨p, pt, rfl⟩ : ∃ p pt, pat = p :: pt := by
      cases pat with
      | nil => exact absurd rfl hpat
      | cons p pt => exact ⟨p, pt, rfl⟩
    simp only [List.nil_append]
    show replaceFirstL (p :: pt) rep (p :: (pt ++ post)) = rep ++ post
    unfold replaceFirstL
    have hpref : (p :: pt).isPrefixOf (p :: (pt ++ post)) = true := by
      rw [List.isPrefixOf_iff_prefix]
      exact ⟨post, by simp⟩
    rw [hpref]
    simp only [if_true]
    congr 1
    show ((p :: pt) ++ post).drop (p :: pt).length = post
    exact List.drop_left (p :: pt) post
  | cons c pre' ih =>
    intro post h
    have h0 : pat.isPrefixOf ((c :: pre') ++ pat ++ post) = false := by
      simpa using h 0 (by simp)
    show replaceFirstL pat rep (c :: (pre' ++ pat ++ post)) = c :: (pre' ++ rep ++ post)
    unfold replaceFirstL
    have h0' : pat.isPrefixOf (c :: (pre' ++ pat ++ post)) = false := by
      simpa using h0
    rw [h0']
    simp only [Bool.false_eq_true, if_false, List.cons.injEq, true_and]
    apply ih
    intro i hi
    have := h (i + 1) (by simpa using hi)
    simpa using this

/-- C7: each configured link rule replaces exactly the first occurrence
of its literal, case-sensitive phrase with the anchor to its URL
wrapping that phrase, and reproduces all text before and after that
occurrence — hence every other occurrence — unchanged.  The first
conjunct is the "Minor Mage" rule (when the curly-quoted "ideal city"
phrase is absent), the second the "ideal city" rule (when "Minor Mage"
is absent). -/
theorem c7_term_linker_first_occurrence :
    (∀ pre post : List Char,
      (∀ i, i < pre.length → mmTerm.isPrefixOf ((pre ++ mmTerm ++ post).drop i) = false) →
      (∀ i, i < (pre ++ mmAnchor ++ post).length →
        icTerm.isPrefixOf ((pre ++ mmAnchor ++ post).drop i) = false) →
      addFootnoteLinksL (pre ++ mmTerm ++ post) = pre ++ mmAnchor ++ post) ∧
    (∀ pre post : List Char,
      (∀ i, i < (pre ++ icTerm ++ post).length →
        mmTerm.isPrefixOf ((pre ++ icTerm ++ post).drop i) = false) →
      (∀ i, i < pre.length → icTerm.isPrefixOf ((pre ++ icTerm ++ post).drop i) = false) →
      addFootnoteLinksL (pre ++ icTerm ++ post) = pre ++ icAnchor ++ post) := by
  constructor
  · intro pre post h1 h2
    unfold addFootnoteLinksL
    rw [replaceFirstL_at_first (by decide) pre post h1]
    exact replaceFirstL_of_no_occ _ h2
  · intro pre post h1 h2
    unfold addFootnoteLinksL
    rw [replaceFirstL_of_no_occ _ h1]
    exact replaceFirstL_at_first (by decide) pre post h2

/-- C7 witness: "x Minor Mage y" gains exactly the configured anchor. -/
theorem c7_term_linker_first_occurrence_witness :
    addFootnoteLinksL (("x ").data ++ mmTerm ++ (" y").data) =
      ("x ").data ++ mmAnchor ++ (" y").data :=
  c7_term_linker_first_occurrence.1 (("x ").data) ((" y").data) (by decide) (by decide)

/-! ## Claim C9 -/

/-- Absence of adjacent hyphens (the only trigger of the two dash
rules). -/
def noDoubleDash : List Char → Bool
  | [] => true
  | [_] => true
  | c :: (d :: t) => !(c = '-' && d = '-') && noDoubleDash (d :: t)

theorem noDoubleDash_dd (t : List Char) : noDoubleDash ('-' :: ('-' :: t)) = false := by
  simp [noDoubleDash]

theorem noDoubleDash_sub {c : Char} {t : List Char}
    (h : noDoubleDash (c :: t) = true) : noDoubleDash t = true := by
  cases t with
  | nil => rfl
  | cons d t' =>
    have : noDoubleDash (c :: (d :: t')) =
        (!(c = '-' && d = '-') && noDoubleDash (d :: t')) := rfl
    rw [this, Bool.and_eq_true] at h
    exact h.2

theorem replaceChar_id {ch : Char} {rep l : List Char} (h : ∀ c ∈ l, c ≠ ch) :
    replaceChar ch rep l = l := by
  induction l with
  | nil => rfl
  | cons d t ih =>
    unfold replaceChar
    rw [List.flatMap_cons, if_neg (h d (by simp))]
    show d :: replaceChar ch rep t = d :: t
    rw [ih (fun c hc => h c (by simp [hc]))]

theorem dashSpaced_id : ∀ l, noDoubleDash l = true → dashSpaced l = l := by
  intro l
  induction l using dashSpaced.induct with
  | case1 rest ih =>
    intro h
    exfalso
    have h2 := noDoubleDash_sub h
    rw [noDoubleDash_dd] at h2
    exact absurd h2 (by simp)
  | case2 c rest hne ih =>
    intro h
    simp only [dashSpaced]
    rw [ih (noDoubleDash_sub h)]
  | case3 =>
    intro _
    rfl

theorem dashBare_id : ∀ l, noDoubleDash l = true → dashBare l = l := by
  intro l
  induction l using dashBare.induct with
  | case1 rest ih =>
    intro h
    exact absurd h (by rw [noDoubleDash_dd]; simp)
  | case2 c rest hne ih =>
    intro h
    simp only [dashBare]
    rw [ih (noDoubleDash_sub h)]
  | case3 =>
    intro _
    rfl

theorem openDouble_id : ∀ st l, (∀ c ∈ l, c ≠ '"') → openDouble st l = l := by
  intro st l
  induction st, l using openDouble.induct with
  | case1 rest ih => intro h; exact absurd rfl (h '"' (by simp))
  | case2 x c rest hne hb ih => intro h; exact absurd rfl (h '"' (by simp))
  | case3 x c rest hne hb ih => intro h; exact absurd rfl (h '"' (by simp))
  | case4 x c rest hne hns ih =>
    intro h
    simp only [openDouble]
    rw [ih (fun d hd => h d (by simp [hd]))]
  | case5 x => intro _; cases x <;> rfl

theorem closeDouble_id : ∀ l, (∀ c ∈ l, c ≠ '"') → closeDouble l = l := by
  intro l
  induction l using closeDouble.induct with
  | case1 => intro h; exact absurd rfl (h '"' (by simp))
  | case2 c rest hb ih => intro h; exact absurd rfl (h '"' (by simp))
  | case3 c rest hb ih => intro h; exact absurd rfl (h '"' (by simp))
  | case4 c rest hne1 hne2 ih =>
    intro h
    simp only [closeDouble]
    rw [ih (fun d hd => h d (by simp [hd]))]
  | case5 => intro _; rfl

theorem openSingle_id : ∀ st l, (∀ c ∈ l, c ≠ '\'') → openSingle st l = l := by
  intro st l
  induction st, l using openSingle.induct with
  | case1 rest ih => intro h; exact absurd rfl (h '\'' (by simp))
  | case2 x c rest hne hb ih => intro h; exact absurd rfl (h '\'' (by simp))
  | case3 x c rest hne hb ih => intro h; exact absurd rfl (h '\'' (by simp))
  | case4 x c rest hne hns ih =>
    intro h
    simp only [openSingle]
    rw [ih (fun d hd => h d (by simp [hd]))]
  | case5 x => intro _; cases x <;> rfl

/-- C9: on a string with no straight quotes, apostrophes, adjacent
hyphens or HTML-special characters, both the typography normalizer and
the HTML escaper are the identity. -/
theorem c9_no_special_identity (s : String)
    (hch : ∀ c ∈ s.data, c ≠ '"' ∧ c ≠ '\'' ∧ c ≠ '&' ∧ c ≠ '<' ∧ c ≠ '>')
    (hdd : noDoubleDash s.data = true) :
    smartTypography s = s ∧ escapeHtml s = s := by
  have hq : ∀ c ∈ s.data, c ≠ '"' := fun c hc => (hch c hc).1
  have ha : ∀ c ∈ s.data, c ≠ '\'' := fun c hc => (hch c hc).2.1
  have hamp : ∀ c ∈ s.data, c ≠ '&' := fun c hc => (hch c hc).2.2.1
  have hlt : ∀ c ∈ s.data, c ≠ '<' := fun c hc => (hch c hc).2.2.2.1
  have hgt : ∀ c ∈ s.data, c ≠ '>' := fun c hc => (hch c hc).2.2.2.2
  have hsmart : smartL s.data = s.data := by
    unfold smartL apostrophe fallbackDouble
    rw [dashSpaced_id s.data hdd, dashBare_id s.data hdd,
      openDouble_id true s.data hq, closeDouble_id s.data hq,
      replaceChar_id hq, openSingle_id true s.data ha, replaceChar_id ha]
  have hesc : escL s.data = s.data := by
    unfold escL escQuot escGt escLt escAmp
    rw [replaceChar_id hamp, replaceChar_id hlt, replaceChar_id hgt, replaceChar_id hq]
  constructor
  · show String.mk (smartL s.data) = s
    rw [hsmart]
  · show String.mk (escL s.data) = s
    rw [hesc]

/-- C9 witness at a plain sentence. -/
theorem c9_no_special_identity_witness :
    smartTypography ("plain text, no marks - one hyphen.") =
        "plain text, no marks - one hyphen." ∧
      escapeHtml ("plain text, no marks - one hyphen.") =
        "plain text, no marks - one hyphen." :=
  c9_no_special_identity ("plain text, no marks - one hyphen.") (by decide) (by decide)

/-! ## Claim C2 -/

theorem splitOnPred_ne_nil (p : Char → Bool) : ∀ l, splitOnPred p l ≠ [] := by
  intro l
  cases l with
  | nil => simp [splitOnPred]
  | cons c t =>
    unfold splitOnPred
    cases hs : splitOnPred p t with
    | nil => simp
    | cons s ss => by_cases hp : p c = true <;> simp [hp]

/-- The head of a JS `split` is the text before the first separator. -/
theorem splitOnPred_head (p : Char → Bool) :
    ∀ l, (splitOnPred p l).headD [] = l.takeWhile (fun c => !p c) := by
  intro l
  induction l with
  | nil => rfl
  | cons c t ih =>
    unfold splitOnPred
    cases hs : splitOnPred p t with
    | nil => exact absurd hs (splitOnPred_ne_nil p t)
    | cons s ss =>
      rw [hs] at ih
      by_cases hp : p c = true
      · simp [hp, List.takeWhile_cons]
      · have hhead : s = t.takeWhile (fun c => !p c) := ih
        simp [hp, List.takeWhile_cons, hhead]

/-- C2: `getPreview` coincides, on every caption, with the preview
the spec describes — strip the `[FN<digits>]` markers, trim, take the
text before the first `.`, `!` or `?`; over 120 characters keep the
first 117 plus an ellipsis; otherwise append an ellipsis exactly when
more text followed the first sentence — normalized and escaped. -/
theorem c2_preview_matches_spec (s : String) :
    getPreview s = String.mk (previewSpecL s.data) := by
  by_cases hs : s = ""
  · subst hs
    rfl
  · unfold getPreview
    rw [if_neg hs]
    show String.mk (getPreviewL s.data) = _
    refine congrArg String.mk ?_
    unfold getPreviewL previewSpecL
    dsimp only
    rw [splitOnPred_head isSentenceEnd]
    set plain := trimJS (stripMarkers s.data) with hplain
    set fs := plain.takeWhile (fun c => !isSentenceEnd c) with hfs
    have hpre : fs <+: plain := hfs ▸ List.takeWhile_prefix _
    by_cases h120 : fs.length > 120
    · rw [if_pos h120, if_pos h120]
    · rw [if_neg h120, if_neg h120]
      by_cases heq : fs = plain
      · rw [if_pos heq]
        have hno : ¬ plain.length > fs.length := by rw [heq]; omega
        rw [if_neg hno, List.append_nil]
      · rw [if_neg heq]
        have hlen : plain.length > fs.length := by
          rcases lt_or_eq_of_le hpre.length_le with hlt | heqlen
          · exact hlt
          · exact absurd (hpre.eq_of_length heqlen) heq
        rw [if_pos hlen]

/-! ## Claim C8 -/

/-- A feed entry after the title replacement table. -/
def toProcessed (e : Entry) : Entry := { e with title := applyTextReplacements e.title }

theorem withIdx_append (f : Nat → Entry → String) :
    ∀ (a b : List Entry) (i : Nat),
      withIdx f i (a ++ b) = withIdx f i a ++ withIdx f (i + a.length) b := by
  intro a
  induction a with
  | nil => intro b i; simp [withIdx]
  | cons e es ih =>
    intro b i
    have hidx : i + 1 + es.length = i + (es.length + 1) := by omega
    simp only [List.cons_append, withIdx, List.append_eq, ih, List.length_cons, hidx]

theorem manualLoop_spec :
    ∀ (es : List Entry) (idx : Nat),
      manualLoop idx es =
        (withIdx (fun i e => gridItemHtml i e.imageUrl e.title) idx es,
         withIdx (fun i e => slideHtml i e.imageUrl e.title e.postUrl) idx es,
         idx + es.length) := by
  intro es
  induction es with
  | nil => intro idx; simp [manualLoop, withIdx]
  | cons e es ih =>
    intro idx
    have hidx : idx + 1 + es.length = idx + (es.length + 1) := by omega
    simp only [manualLoop, ih, withIdx, List.length_cons, hidx]

theorem feedLoop_spec :
    ∀ (es : List Entry) (idx : Nat),
      feedLoop idx es =
        (withIdx (fun i e => gridItemHtml i e.imageUrl e.title) idx
          ((es.filter (fun e => e.imageUrl != "")).map toProcessed),
         withIdx (fun i e => slideHtml i e.imageUrl e.title e.postUrl) idx
          ((es.filter (fun e => e.imageUrl != "")).map toProcessed),
         idx + ((es.filter (fun e => e.imageUrl != "")).map toProcessed).length) := by
  intro es
  induction es with
  | nil => intro idx; simp [feedLoop, withIdx]
  | cons e es ih =>
    intro idx
    by_cases himg : e.imageUrl = ""
    · have hfilter : ((e :: es).filter (fun e => e.imageUrl != "")) =
          es.filter (fun e => e.imageUrl != "") := by
        simp [List.filter_cons, himg]
      simp only [feedLoop, if_pos himg, hfilter, ih]
    · have hfilter : ((e :: es).filter (fun e => e.imageUrl != "")) =
          e :: es.filter (fun e => e.imageUrl != "") := by
        simp [List.filter_cons, himg]
      have hidx : idx + 1 + ((es.filter (fun e => e.imageUrl != "")).map toProcessed).length =
          idx + (((es.filter (fun e => e.imageUrl != "")).map toProcessed).length + 1) := by
        omega
      simp only [feedLoop, if_neg himg, ih, hfilter, List.map_cons, withIdx,
        List.length_cons, toProcessed, hidx]

/-- C8: entry assembly produces two parallel, index-aligned sequences.
The thumbnail list, the slide list and the total count all arise from
the single zero-based indexed walk of the included entries — the manual
entries followed by exactly those feed entries whose image URL is
non-empty (with the title-replacement table applied); a feed entry with
an empty image URL appears in neither sequence and shifts no index. -/
theorem c8_entry_assembly (feed : List Entry) :
    assemble feed =
      (withIdx (fun i e => gridItemHtml i e.imageUrl e.title) 0
        (MANUAL_ENTRIES ++ (feed.filter (fun e => e.imageUrl != "")).map toProcessed),
       withIdx (fun i e => slideHtml i e.imageUrl e.title e.postUrl) 0
        (MANUAL_ENTRIES ++ (feed.filter (fun e => e.imageUrl != "")).map toProcessed),
       (MANUAL_ENTRIES ++ (feed.filter (fun e => e.imageUrl != "")).map toProcessed).length) := by
  unfold assemble
  dsimp only
  rw [manualLoop_spec, feedLoop_spec]
  dsimp only
  rw [withIdx_append, withIdx_append]
  refine congrArg₂ Prod.mk rfl (congrArg₂ Prod.mk rfl ?_)
  simp [List.length_append]

end PixelfedMirror
